import Mathlib

/-!
Shallow embedding of the curriculum markup compiler of `ai_tutor`
(`src/frontend/teacher_dashboard.py`): the `ContentValidator` and
`ContentParser` classes.  Documents are strings; we model them as
`List Char` internally (the public entry points `validate_content` and
`parse_content` take a `String`, mirroring the Python signatures).

The Python code works by regular-expression scans.  Every regex used by the
source is simple enough to have deterministic backtracking behaviour, so each
one is embedded here as an explicit left-to-right scanner whose semantics is
justified next to its definition.  Character classes (`\s`, `\d`, `.`) are
modelled over their ASCII meanings, which is the intended input alphabet of
the markup grammar.

Scanners that resume after the end of a match are not structurally recursive,
so they take an explicit fuel argument; the public wrappers instantiate the
fuel with the input length, which is always sufficient because every step of
the scan consumes at least one character.
-/

/-- ASCII model of the Python regex class `\s` (also of `str.strip` /
`str.split` whitespace): space, tab, newline, carriage return, vertical tab,
form feed. -/
def isPySpace (c : Char) : Bool :=
  (c == ' ') || (c == '\t') || (c == '\n') || (c == '\r') || (c == '\x0b') || (c == '\x0c')

/-- Model of Python `str.strip()`: remove leading and trailing whitespace. -/
def pyStrip (l : List Char) : List Char :=
  ((l.dropWhile isPySpace).reverse.dropWhile isPySpace).reverse

/-- Match a literal at the head of the input, returning the remainder. -/
def stripLit : List Char → List Char → Option (List Char)
  | [], l => some l
  | _ :: _, [] => none
  | p :: ps, c :: cs => if c == p then stripLit ps cs else none

/-- Match a literal at the head of the input case-insensitively
(the `re.IGNORECASE` flag of the header regexes), returning the remainder. -/
def stripLitCI : List Char → List Char → Option (List Char)
  | [], l => some l
  | _ :: _, [] => none
  | p :: ps, c :: cs => if c.toLower == p.toLower then stripLitCI ps cs else none

/-- Model of `re.search` position scanning: try the pattern matcher `f` at
every position of the input, left to right (leftmost match wins), including
the position at the end of the input. -/
def searchO {α : Type} (f : List Char → Option α) : List Char → Option α
  | [] => f []
  | c :: cs =>
    match f (c :: cs) with
    | some x => some x
    | none => searchO f cs

/-- Model of the regex tail `\s*(.+)` starting at the given position, under
Python backtracking semantics: the greedy `\s*` first consumes the maximal
whitespace run; if a character remains it is not whitespace (hence not a
newline), so the group is the rest of that line.  If the whitespace run
reaches the end of the input, `\s*` backtracks one character at a time and
`.+` (which cannot match a newline) first succeeds on the last character of
the run that is not a newline, capturing exactly that character. -/
def tailGroup (l : List Char) : Option (List Char) :=
  match l.dropWhile isPySpace with
  | [] =>
    match (l.reverse.dropWhile (fun c => c == '\n')) with
    | [] => none
    | c :: _ => some [c]
  | c :: cs => some ((c :: cs).takeWhile (fun d => !(d == '\n')))

/-- Matcher for a header regex `LIT\s*:\s*(.+)` (with `re.IGNORECASE`) at one
position: the case-insensitive literal, then the greedy `\s*` (whose
backtracking characters are whitespace and can never satisfy the following
`:`, so it deterministically takes the maximal run), then `:`, then the
`\s*(.+)` tail.  Returns the captured group. -/
def headerAt (lit : List Char) (l : List Char) : Option (List Char) :=
  match stripLitCI lit l with
  | none => none
  | some r1 =>
    match r1.dropWhile isPySpace with
    | ':' :: r3 => tailGroup r3
    | _ => none

/-- Model of `re.search(r'### Lecture Title\s*:\s*(.+)', content, re.IGNORECASE)`,
returning the captured group. -/
def titleSearch (l : List Char) : Option (List Char) :=
  searchO (headerAt ("### Lecture Title".toList)) l

/-- Model of `re.search(r'### Description\s*:\s*(.+)', content, re.IGNORECASE)`,
returning the captured group. -/
def descSearch (l : List Char) : Option (List Char) :=
  searchO (headerAt ("### Description".toList)) l

/-- Value of a decimal digit list, as Python `int()` on a digit string. -/
def digitsToNat (ds : List Char) : Nat :=
  ds.foldl (fun a c => a * 10 + (c.toNat - 48)) 0

/-- Matcher for the subtopic-marker regex `# \$(\d+)` at one position: the
literal `#`, space, `$`, then a maximal nonempty digit run (greedy `\d+`,
with nothing after it to force backtracking).  Returns the marker number and
the remainder of the input after the match. -/
def matchMarkerAt : List Char → Option (Nat × List Char)
  | '#' :: ' ' :: '$' :: rest =>
    match rest.takeWhile Char.isDigit with
    | [] => none
    | ds => some (digitsToNat ds, rest.dropWhile Char.isDigit)
  | _ => none

/-- Fueled scan of `re.findall(r'# \$(\d+)', content)`: left-to-right,
non-overlapping matches, resuming after each match end. -/
def findMarkersF : Nat → List Char → List Nat
  | _, [] => []
  | 0, _ :: _ => []
  | fuel + 1, c :: cs =>
    match matchMarkerAt (c :: cs) with
    | some (n, rest) => n :: findMarkersF fuel rest
    | none => findMarkersF fuel cs

/-- Model of `re.findall(r'# \$(\d+)', content)` used by
`ContentValidator._validate_subtopics`. -/
def findMarkers (l : List Char) : List Nat :=
  findMarkersF l.length l

/-- Fueled scan of `re.split(r'# \$(\d+)', content)`: returns the text before
the first match together with the list of (captured number, following text)
pairs.  With one capture group, Python's split result
`[s0, n1, s1, ..., nk, sk]` corresponds to `(s0, [(n1, s1), ..., (nk, sk)])`;
the trailing part `sk` is always present (possibly empty). -/
def scanSplitF : Nat → List Char → List Char × List (Nat × List Char)
  | _, [] => ([], [])
  | 0, c :: cs => (c :: cs, [])
  | fuel + 1, c :: cs =>
    match matchMarkerAt (c :: cs) with
    | some (n, rest) =>
      ([], (n, (scanSplitF fuel rest).1) :: (scanSplitF fuel rest).2)
    | none =>
      ((c :: (scanSplitF fuel cs).1), (scanSplitF fuel cs).2)

/-- Model of `re.split(r'# \$(\d+)', content)` used by
`ContentParser._parse_subtopics` (and, group dropped, of
`re.split(r'# \$\d+', content)` in `_validate_content_completeness`:
both regexes produce exactly the same matches). -/
def markerSplit (l : List Char) : List Char × List (Nat × List Char) :=
  scanSplitF l.length l

/-- Fueled model of Python `str.split()` (no separator): maximal runs of
non-whitespace characters, leading/trailing whitespace ignored. -/
def pySplitF : Nat → List Char → List (List Char)
  | _, [] => []
  | 0, _ :: _ => []
  | fuel + 1, c :: cs =>
    match (c :: cs).dropWhile isPySpace with
    | [] => []
    | d :: ds =>
      ((d :: ds).takeWhile (fun e => !(isPySpace e)))
        :: pySplitF fuel ((d :: ds).dropWhile (fun e => !(isPySpace e)))

/-- Model of Python `content.split()`. -/
def pySplit (l : List Char) : List (List Char) :=
  pySplitF l.length l

/-- Matcher for the duration regex `\[(\d+)\s*min\]` at one position: `[`,
a maximal nonempty digit run, maximal whitespace (backtracking of `\d+` or
`\s*` can never help, since a digit cannot continue `\s*min]` and a
whitespace character cannot start `min]`), then the literal `min]`. -/
def durationAt (l : List Char) : Option Nat :=
  match l with
  | '[' :: r =>
    match r.takeWhile Char.isDigit with
    | [] => none
    | ds =>
      match stripLit ("min]".toList) ((r.dropWhile Char.isDigit).dropWhile isPySpace) with
      | some _ => some (digitsToNat ds)
      | none => none
  | _ => none

/-- Model of `re.search(r'\[(\d+)\s*min\]', content)` in
`ContentParser._estimate_duration`, returning the captured number. -/
def durationSearch (l : List Char) : Option Nat :=
  searchO durationAt l

/-- Helper for `re.MULTILINE` search: try the matcher after each newline
(the start-of-input position is tried by `searchML`). -/
def searchMLAux {α : Type} (f : List Char → Option α) : List Char → Option α
  | [] => none
  | c :: cs =>
    if c == '\n' then
      match f cs with
      | some x => some x
      | none => searchMLAux f cs
    else searchMLAux f cs

/-- Model of `re.search` with `re.MULTILINE` on a pattern anchored by `^`:
the matcher is tried at the start of the input and after every newline, left
to right. -/
def searchML {α : Type} (f : List Char → Option α) (l : List Char) : Option α :=
  match f l with
  | some x => some x
  | none => searchMLAux f l

/-- Matcher for `##\s*(.+)` at a line-start position (the pattern
`^##\s*(.+)` of `_extract_subtopic_title`): the literal `##` then the
`\s*(.+)` tail. -/
def headingAt : List Char → Option (List Char)
  | '#' :: '#' :: r => tailGroup r
  | _ => none

/-- Model of `re.search(r'^##\s*(.+)', content, re.MULTILINE)`, returning the
captured group. -/
def headingSearch (l : List Char) : Option (List Char) :=
  searchML headingAt l

/-- Fueled model of `re.sub(r'\[.*?\]', '', title)`: each lazily-matched
bracketed span (an opening `[`, then the nearest following `]` with no
newline in between, `.` not matching newlines) is removed; positions where
the pattern cannot match are kept and the scan advances one character. -/
def removeBracketsF : Nat → List Char → List Char
  | _, [] => []
  | 0, l => l
  | fuel + 1, c :: cs =>
    if c == '[' then
      match cs.dropWhile (fun d => !(d == ']') && !(d == '\n')) with
      | ']' :: rest => removeBracketsF fuel rest
      | _ => c :: removeBracketsF fuel cs
    else c :: removeBracketsF fuel cs

/-- Model of `re.sub(r'\[.*?\]', '', title)`. -/
def removeBrackets (l : List Char) : List Char :=
  removeBracketsF l.length l

/-- Model of `ContentParser._extract_subtopic_title`: first line-anchored
`##` heading (bracketed annotations removed, trimmed); else the first line of
the section when nonempty and under 100 characters; else the literal
`Subtopic {order_index}`. -/
def extract_subtopic_title (content : List Char) (order_index : Nat) : List Char :=
  match headingSearch content with
  | some g => pyStrip (removeBrackets (pyStrip g))
  | none =>
    match pyStrip (content.takeWhile (fun c => !(c == '\n'))) with
    | [] => ("Subtopic ".toList) ++ (Nat.repr order_index).toList
    | c :: cs =>
      if (c :: cs).length < 100 then c :: cs
      else ("Subtopic ".toList) ++ (Nat.repr order_index).toList

/-- Matcher for one fenced code block at one position, the regex
`` ```(?:python)?\n(.*?)\n``` `` with `re.DOTALL`: the opening fence is the
literal backtick-backtick-backtick, optionally (greedy, tried first)
followed by the literal `python`, then a newline; the lazy group `(.*?)`
captures everything (newlines included, by `DOTALL`) up to the nearest
following newline+three-backticks.  Returns the captured inner text and the
remainder of the input after the match. -/
def findFenceClose : List Char → Option (List Char × List Char)
  | [] => none
  | c :: cs =>
    match stripLit ("\n```".toList) (c :: cs) with
    | some rest => some ([], rest)
    | none =>
      match findFenceClose cs with
      | some (code, rest) => some (c :: code, rest)
      | none => none

/-- Matcher for the code-block regex at one position (see `findFenceClose`):
the greedy optional `python` branch is tried in full before the empty
branch. -/
def codeBlockAt (l : List Char) : Option (List Char × List Char) :=
  match stripLit ("```python\n".toList) l with
  | some r =>
    match findFenceClose r with
    | some res => some res
    | none =>
      match stripLit ("```\n".toList) l with
      | some r2 => findFenceClose r2
      | none => none
  | none =>
    match stripLit ("```\n".toList) l with
    | some r2 => findFenceClose r2
    | none => none

/-- Fueled scan of `re.findall` for the code-block regex: left-to-right,
non-overlapping, resuming after each match. -/
def scanCodeBlocksF : Nat → List Char → List (List Char)
  | _, [] => []
  | 0, _ :: _ => []
  | fuel + 1, c :: cs =>
    match codeBlockAt (c :: cs) with
    | some (code, rest) => code :: scanCodeBlocksF fuel rest
    | none => scanCodeBlocksF fuel cs

/-- Model of `re.findall(r'```(?:python)?\n(.*?)\n```', content, re.DOTALL)`. -/
def scanCodeBlocks (l : List Char) : List (List Char) :=
  scanCodeBlocksF l.length l

/-- One extracted code example of `ContentParser._extract_code_blocks`. -/
structure CodeExample where
  code : List Char
  explanation : List Char
deriving DecidableEq, Repr

/-- Loop body of `_extract_code_blocks`: `for i, code in enumerate(matches)`,
appending the trimmed code with the placeholder explanation
`Code example {i+1}`. -/
def buildExamples : Nat → List (List Char) → List CodeExample
  | _, [] => []
  | i, code :: rest =>
    { code := pyStrip code,
      explanation := ("Code example ".toList) ++ (Nat.repr (i + 1)).toList }
      :: buildExamples (i + 1) rest

/-- Model of `ContentParser._extract_code_blocks`. -/
def extract_code_blocks (content : List Char) : List CodeExample :=
  buildExamples 0 (scanCodeBlocks content)

/-- Matcher for the inquiry-prompt regex `[">]\s*"([^"]+)"` at one position:
a double quote or `>`, maximal whitespace (its backtracking characters can
never satisfy the following `"`), an opening `"`, then the greedy `[^"]+`
(a maximal nonempty run of non-quote characters, newlines included), then
the closing `"`.  Returns the captured span and the remainder after the
match. -/
def quoteAt : List Char → Option (List Char × List Char)
  | [] => none
  | c :: cs =>
    if c == '"' || c == '>' then
      match cs.dropWhile isPySpace with
      | '"' :: r3 =>
        match r3.takeWhile (fun d => !(d == '"')) with
        | [] => none
        | m =>
          match r3.dropWhile (fun d => !(d == '"')) with
          | _ :: r4 => some (m, r4)
          | [] => none
      | _ => none
    else none

/-- Fueled scan of `re.findall` for the inquiry-prompt regex. -/
def scanQuotesF : Nat → List Char → List (List Char)
  | _, [] => []
  | 0, _ :: _ => []
  | fuel + 1, c :: cs =>
    match quoteAt (c :: cs) with
    | some (m, rest) => m :: scanQuotesF fuel rest
    | none => scanQuotesF fuel cs

/-- Model of `re.findall(r'[">]\s*"([^"]+)"', content)`. -/
def scanQuotes (l : List Char) : List (List Char) :=
  scanQuotesF l.length l

/-- Loop body of `_extract_inquiry_prompts`: keep a candidate iff its length
is strictly greater than 10, appending it stripped. -/
def buildPrompts : List (List Char) → List (List Char)
  | [] => []
  | m :: rest =>
    if 10 < m.length then pyStrip m :: buildPrompts rest
    else buildPrompts rest

/-- Model of `ContentParser._extract_inquiry_prompts`. -/
def extract_inquiry_prompts (content : List Char) : List (List Char) :=
  buildPrompts (scanQuotes content)

/-- Model of `ContentParser._estimate_duration`: an explicit `[N min]`
annotation wins and is returned as is; otherwise
`min(max(5, word_count // 100 * 5), 60)` with `word_count` the length of
`content.split()`. -/
def estimate_duration (content : List Char) : Nat :=
  match durationSearch content with
  | some n => n
  | none => min (max 5 ((pySplit content).length / 100 * 5)) 60

/-- Blocking problems collected by `ContentValidator` (`self.errors`).  Each
constructor stands for one exact `append` site in the source; the Python
message text is given in the comment. -/
inductive VErr where
  /-- message `Content cannot be empty` -/
  | emptyContent : VErr
  /-- message `Missing required header: '### Lecture Title :'` -/
  | missingTitle : VErr
  /-- message `Lecture title cannot be empty` -/
  | emptyTitle : VErr
  /-- message `No subtopics found. Must have at least '# $1'` -/
  | noSubtopics : VErr
  /-- message `Subtopics must be numbered sequentially starting from $1. Found: ...` -/
  | notSequential : VErr
  /-- message `Duplicate subtopic numbers found: ...` -/
  | duplicateNumbers : VErr
  /-- message `First subtopic must be '# $1'` -/
  | firstNotOne : VErr
deriving DecidableEq, Repr

/-- Non-blocking concerns collected by `ContentValidator` (`self.warnings`);
the `Nat` index is the 1-based position used by the Python f-string. -/
inductive VWarn where
  /-- message `Description header found but content is empty` -/
  | emptyDescription : VWarn
  /-- message `Subtopic ${i} appears to be empty` -/
  | emptySubtopic : Nat → VWarn
  /-- message `Subtopic ${i} seems very short (less than 20 characters)` -/
  | shortSubtopic : Nat → VWarn
deriving DecidableEq, Repr

/-- Remediation hints collected by `ContentValidator` (`self.suggestions`). -/
inductive VSugg where
  /-- message `Add '### Lecture Title : Your Title Here' at the beginning` -/
  | addTitle : VSugg
  /-- message `Provide a meaningful title after '### Lecture Title :'` -/
  | meaningfulTitle : VSugg
  /-- message `Add subtopic sections using '# $1', '# $2', etc.` -/
  | addMarkers : VSugg
  /-- message `Use sequential numbering: ...` -/
  | useSequential : VSugg
  /-- message `Each subtopic number should be unique` -/
  | uniqueNumbers : VSugg
  /-- message `Start subtopic numbering with '# $1'` -/
  | startWithOne : VSugg
  /-- message `Add content after '# ${i}' marker` -/
  | addContent : Nat → VSugg
deriving DecidableEq, Repr

/-- Result dictionary of `ContentValidator._build_result`. -/
structure ValidationResult where
  is_valid : Bool
  errors : List VErr
  warnings : List VWarn
  suggestions : List VSugg
  error_count : Nat
  warning_count : Nat
deriving DecidableEq, Repr

/-- Model of `ContentValidator._build_result`: `is_valid` is
`len(self.errors) == 0`. -/
def build_result (errors : List VErr) (warnings : List VWarn)
    (suggestions : List VSugg) : ValidationResult :=
  { is_valid := errors.isEmpty
    errors := errors
    warnings := warnings
    suggestions := suggestions
    error_count := errors.length
    warning_count := warnings.length }

/-- Errors and suggestions of `ContentValidator._validate_headers` (its only
warning, the empty-description one, is returned separately by
`headersWarns`). -/
def headersErrs (l : List Char) : List VErr × List VSugg :=
  match titleSearch l with
  | none => ([VErr.missingTitle], [VSugg.addTitle])
  | some g =>
    if pyStrip g = [] then ([VErr.emptyTitle], [VSugg.meaningfulTitle])
    else ([], [])

/-- Warning of `ContentValidator._validate_headers` for a present but empty
description header. -/
def headersWarns (l : List Char) : List VWarn :=
  match descSearch l with
  | none => []
  | some g => if pyStrip g = [] then [VWarn.emptyDescription] else []

/-- Number of distinct elements of a list: length of `set(numbers)` in
`ContentValidator._validate_subtopics`, modelled by inserting each element
into an accumulator unless already present. -/
def distinctCount (l : List Nat) : Nat :=
  (l.foldl (fun s n => if n ∈ s then s else n :: s) []).length

/-- Errors and suggestions of `ContentValidator._validate_subtopics`: early
return when no marker is found; otherwise the sequential-numbering check
against `list(range(1, len(numbers) + 1))`, the duplicate check comparing
`len(numbers)` with `len(set(numbers))`, and the first-marker check, each
appending independently. -/
def subtopicsErrs (l : List Char) : List VErr × List VSugg :=
  match findMarkers l with
  | [] => ([VErr.noSubtopics], [VSugg.addMarkers])
  | m :: ms =>
    let numbers := m :: ms
    let seq :=
      if numbers = List.range' 1 numbers.length then (([] : List VErr), ([] : List VSugg))
      else ([VErr.notSequential], [VSugg.useSequential])
    let dup :=
      if numbers.length = distinctCount numbers then (([] : List VErr), ([] : List VSugg))
      else ([VErr.duplicateNumbers], [VSugg.uniqueNumbers])
    let fst :=
      if m = 1 then (([] : List VErr), ([] : List VSugg))
      else ([VErr.firstNotOne], [VSugg.startWithOne])
    (seq.1 ++ dup.1 ++ fst.1, seq.2 ++ dup.2 ++ fst.2)

/-- Loop of `ContentValidator._validate_content_completeness` over the
sections after each marker, with 1-based positional index `i`: empty body →
warning and suggestion; body shorter than 20 characters → warning only. -/
def completenessWalk : Nat → List (List Char) → List VWarn × List VSugg
  | _, [] => ([], [])
  | i, s :: rest =>
    let sc := pyStrip s
    let tail := completenessWalk (i + 1) rest
    if sc = [] then (VWarn.emptySubtopic i :: tail.1, VSugg.addContent i :: tail.2)
    else if sc.length < 20 then (VWarn.shortSubtopic i :: tail.1, tail.2)
    else tail

/-- Warnings and suggestions of `_validate_content_completeness`: split by
the marker pattern, skip the header part, walk the remaining sections. -/
def completenessWarns (l : List Char) : List VWarn × List VSugg :=
  completenessWalk 1 ((markerSplit l).2.map Prod.snd)

/-- Model of `ContentValidator.validate_content`: empty input short-circuits
with the single error; otherwise headers, subtopics and completeness checks
run in order, each appending to the shared error/warning/suggestion lists. -/
def validate_content (content : String) : ValidationResult :=
  let l := content.toList
  if pyStrip l = [] then build_result [VErr.emptyContent] [] []
  else
    let h := headersErrs l
    let s := subtopicsErrs l
    let c := completenessWarns l
    build_result (h.1 ++ s.1) (headersWarns l ++ c.1) (h.2 ++ s.2 ++ c.2)

/-- One parsed subtopic of `ContentParser._parse_subtopics`. -/
structure ParsedSubtopic where
  order_index : Nat
  title : List Char
  content : List Char
  examples : List CodeExample
  inquiry_prompts : List (List Char)
  estimated_duration_minutes : Nat
deriving DecidableEq, Repr

/-- Parsed lecture structure of `ContentParser.parse_content`. -/
structure ParsedLecture where
  title : List Char
  description : List Char
  subtopics : List ParsedSubtopic
  total_subtopics : Nat
deriving DecidableEq, Repr

/-- Body of the `_parse_subtopics` loop for one `(marker number, section)`
pair: the section text is stripped and every per-subtopic field is extracted
from it. -/
def mkSubtopic (n : Nat) (seg : List Char) : ParsedSubtopic :=
  let sc := pyStrip seg
  { order_index := n
    title := extract_subtopic_title sc n
    content := sc
    examples := extract_code_blocks sc
    inquiry_prompts := extract_inquiry_prompts sc
    estimated_duration_minutes := estimate_duration sc }

/-- Model of `ContentParser._parse_subtopics`: split by the marker regex and
build one subtopic per `(number, following text)` pair.  The loop guard
`i + 1 < len(parts)` of the source never fails, because `re.split` with a
capture group always yields the trailing remainder part (possibly empty), so
every pair produces a subtopic. -/
def parse_subtopics (l : List Char) : List ParsedSubtopic :=
  (markerSplit l).2.map (fun p => mkSubtopic p.1 p.2)

/-- Model of `ContentParser.parse_content`. -/
def parse_content (content : String) : ParsedLecture :=
  let l := content.toList
  { title :=
      match titleSearch l with
      | some g => pyStrip g
      | none => ("Untitled Lecture".toList)
    description :=
      match descSearch l with
      | some g => pyStrip g
      | none => []
    subtopics := parse_subtopics l
    total_subtopics := (parse_subtopics l).length }

/-!  Helper lemmas.  -/

/-- The findall scan and the split scan are driven by the same matcher and
the same resumption policy, so the captured numbers of the split are exactly
the findall result, for every fuel value. -/
theorem findMarkersF_eq_scanSplitF (fuel : Nat) :
    ∀ l : List Char, findMarkersF fuel l = (scanSplitF fuel l).2.map Prod.fst := by
  induction fuel with
  | zero =>
    intro l
    cases l <;> simp [findMarkersF, scanSplitF]
  | succ fuel ih =>
    intro l
    cases l with
    | nil => simp [findMarkersF, scanSplitF]
    | cons c cs =>
      simp only [findMarkersF, scanSplitF]
      cases h : matchMarkerAt (c :: cs) with
      | none => simpa using ih cs
      | some p =>
        simp [ih p.2]

/-- Agreement of the validator's marker list with the parser's split. -/
theorem findMarkers_eq_markerSplit (l : List Char) :
    findMarkers l = (markerSplit l).2.map Prod.fst :=
  findMarkersF_eq_scanSplitF l.length l

/-- Membership in a `dropWhile` is membership in the list. -/
theorem forall_mem_dropWhile_iff (p : Char → Bool) (l : List Char) :
    (∀ x ∈ l.dropWhile p, p x = true) ↔ (∀ x ∈ l, p x = true) := by
  constructor
  · intro h x hx
    rw [← List.takeWhile_append_dropWhile p l] at hx
    rcases List.mem_append.mp hx with h1 | h2
    · exact List.mem_takeWhile_imp h1
    · exact h x h2
  · intro h x hx
    exact h x ((List.dropWhile_sublist p).subset hx)

/-- A string strips to empty exactly when all its characters are whitespace. -/
theorem pyStrip_eq_nil_iff (l : List Char) :
    pyStrip l = [] ↔ ∀ x ∈ l, isPySpace x = true := by
  unfold pyStrip
  rw [List.reverse_eq_nil_iff, List.dropWhile_eq_nil_iff]
  constructor
  · intro h
    rw [← forall_mem_dropWhile_iff isPySpace l]
    intro x hx
    exact h x (List.mem_reverse.mpr hx)
  · intro h x hx
    exact h x ((List.dropWhile_sublist isPySpace).subset (List.mem_reverse.mp hx))

/-- A whitespace character is not the head of the marker pattern. -/
theorem matchMarkerAt_ws_none (c : Char) (cs : List Char)
    (h : isPySpace c = true) : matchMarkerAt (c :: cs) = none := by
  simp only [isPySpace, Bool.or_eq_true, beq_iff_eq] at h
  rcases h with ((((h | h) | h) | h) | h) | h <;> subst h <;> rfl

/-- A document consisting only of whitespace contains no marker. -/
theorem findMarkersF_all_ws (fuel : Nat) :
    ∀ l : List Char, (∀ x ∈ l, isPySpace x = true) → findMarkersF fuel l = [] := by
  induction fuel with
  | zero => intro l _; cases l <;> rfl
  | succ fuel ih =>
    intro l h
    cases l with
    | nil => rfl
    | cons c cs =>
      have hc : isPySpace c = true := h c (List.mem_cons_self c cs)
      simp only [findMarkersF, matchMarkerAt_ws_none c cs hc]
      exact ih cs (fun x hx => h x (List.mem_cons_of_mem c hx))

/-- A marker-bearing document is not whitespace-only, hence does not strip
to the empty string. -/
theorem pyStrip_ne_nil_of_findMarkers_ne_nil (l : List Char)
    (h : findMarkers l ≠ []) : pyStrip l ≠ [] := by
  intro hs
  exact h (findMarkersF_all_ws l.length l ((pyStrip_eq_nil_iff l).mp hs))

/-- A whitespace character does not open the case-insensitive literal
`### Lecture Title` (or any literal beginning with a hash). -/
theorem stripLitCI_hash_ws_none (ps : List Char) (c : Char) (cs : List Char)
    (h : isPySpace c = true) : stripLitCI ('#' :: ps) (c :: cs) = none := by
  simp only [isPySpace, Bool.or_eq_true, beq_iff_eq] at h
  rcases h with ((((h | h) | h) | h) | h) | h <;> subst h <;> rfl

/-- The header matcher fails on whitespace-only input. -/
theorem headerAt_hash_all_ws (ps : List Char) (l : List Char)
    (h : ∀ x ∈ l, isPySpace x = true) : headerAt ('#' :: ps) l = none := by
  cases l with
  | nil => rfl
  | cons c cs =>
    have hc := h c (List.mem_cons_self c cs)
    simp only [headerAt, stripLitCI_hash_ws_none ps c cs hc]

/-- The title search fails on whitespace-only input. -/
theorem titleSearch_all_ws (l : List Char)
    (h : ∀ x ∈ l, isPySpace x = true) : titleSearch l = none := by
  unfold titleSearch
  induction l with
  | nil => rfl
  | cons c cs ih =>
    simp only [searchO]
    rw [show ("### Lecture Title".toList) = '#' :: ("## Lecture Title".toList) from rfl]
    rw [headerAt_hash_all_ws _ _ h]
    exact ih (fun x hx => h x (List.mem_cons_of_mem c hx))

/-- A title-bearing document does not strip to the empty string. -/
theorem pyStrip_ne_nil_of_titleSearch_some (l : List Char) (g : List Char)
    (h : titleSearch l = some g) : pyStrip l ≠ [] := by
  intro hs
  rw [titleSearch_all_ws l ((pyStrip_eq_nil_iff l).mp hs)] at h
  exact Option.noConfusion h

/-- One insertion step of the `set`-accumulator fold. -/
def insDistinct (s : List Nat) (n : Nat) : List Nat :=
  if n ∈ s then s else n :: s

theorem distinctCount_def (l : List Nat) :
    distinctCount l = (l.foldl insDistinct []).length := rfl

/-- The accumulator only grows. -/
theorem mem_foldl_insDistinct (l : List Nat) :
    ∀ acc x, x ∈ acc → x ∈ l.foldl insDistinct acc := by
  induction l with
  | nil => intro acc x hx; exact hx
  | cons a l ih =>
    intro acc x hx
    simp only [List.foldl_cons]
    apply ih
    unfold insDistinct
    split
    · exact hx
    · exact List.mem_cons_of_mem a hx

/-- Each step grows the accumulator by at most one. -/
theorem foldl_insDistinct_length_le (l : List Nat) :
    ∀ acc, (l.foldl insDistinct acc).length ≤ acc.length + l.length := by
  induction l with
  | nil => intro acc; simp
  | cons a l ih =>
    intro acc
    simp only [List.foldl_cons, List.length_cons]
    calc (l.foldl insDistinct (insDistinct acc a)).length
        ≤ (insDistinct acc a).length + l.length := ih _
      _ ≤ (acc.length + 1) + l.length := by
          unfold insDistinct
          split <;> simp
      _ = acc.length + (l.length + 1) := by omega

/-- On a duplicate-free list of fresh elements, every step grows the
accumulator by exactly one. -/
theorem foldl_insDistinct_length_nodup (l : List Nat) :
    ∀ acc, l.Nodup → (∀ x ∈ l, x ∉ acc) →
      (l.foldl insDistinct acc).length = acc.length + l.length := by
  induction l with
  | nil => intro acc _ _; simp
  | cons a l ih =>
    intro acc hnd hfresh
    simp only [List.foldl_cons, List.length_cons]
    have ha : a ∉ acc := hfresh a (List.mem_cons_self a l)
    have hins : insDistinct acc a = a :: acc := by
      unfold insDistinct; rw [if_neg ha]
    rw [hins]
    have hnd' : l.Nodup := (List.nodup_cons.mp hnd).2
    have hfresh' : ∀ x ∈ l, x ∉ a :: acc := by
      intro x hx
      simp only [List.mem_cons, not_or]
      exact ⟨fun he => (List.nodup_cons.mp hnd).1 (he ▸ hx),
             hfresh x (List.mem_cons_of_mem a hx)⟩
    rw [ih (a :: acc) hnd' hfresh']
    simp [List.length_cons]
    omega

/-- If some element of the list is already in the accumulator, the final
length falls short of `acc.length + l.length`. -/
theorem foldl_insDistinct_length_lt_of_mem (l : List Nat) :
    ∀ acc x, x ∈ l → x ∈ acc →
      (l.foldl insDistinct acc).length < acc.length + l.length := by
  induction l with
  | nil => intro acc x hx _; cases hx
  | cons a l ih =>
    intro acc x hx hacc
    simp only [List.foldl_cons, List.length_cons]
    rcases List.mem_cons.mp hx with rfl | hx'
    · have : insDistinct acc x = acc := by unfold insDistinct; rw [if_pos hacc]
      rw [this]
      have := foldl_insDistinct_length_le l acc
      omega
    · have hx'' : x ∈ insDistinct acc a := by
        unfold insDistinct
        split
        · exact hacc
        · exact List.mem_cons_of_mem a hacc
      have hlen : (insDistinct acc a).length ≤ acc.length + 1 := by
        unfold insDistinct; split <;> simp
      have := ih (insDistinct acc a) x hx' hx''
      omega

/-- A duplicated element makes the final length fall short. -/
theorem foldl_insDistinct_length_lt_of_dup (l : List Nat) :
    ∀ acc, ¬ l.Nodup →
      (l.foldl insDistinct acc).length < acc.length + l.length := by
  induction l with
  | nil => intro acc h; exact absurd List.nodup_nil h
  | cons a l ih =>
    intro acc h
    simp only [List.foldl_cons, List.length_cons]
    by_cases hal : a ∈ l
    · have hmem : a ∈ insDistinct acc a := by
        unfold insDistinct
        split
        · assumption
        · exact List.mem_cons_self a acc
      have hlen : (insDistinct acc a).length ≤ acc.length + 1 := by
        unfold insDistinct; split <;> simp
      have := foldl_insDistinct_length_lt_of_mem l (insDistinct acc a) a hal hmem
      omega
    · have hndl : ¬ l.Nodup := by
        intro hnd
        exact h (List.nodup_cons.mpr ⟨hal, hnd⟩)
      have hlen : (insDistinct acc a).length ≤ acc.length + 1 := by
        unfold insDistinct; split <;> simp
      have := ih (insDistinct acc a) hndl
      omega

/-- The fold over an empty accumulator counts the distinct elements;
it equals the length exactly when the list has no duplicates.  This is the
bridge between `len(numbers) == len(set(numbers))` and duplicate
existence. -/
theorem distinctCount_eq_length_iff (l : List Nat) :
    distinctCount l = l.length ↔ l.Nodup := by
  rw [distinctCount_def]
  constructor
  · intro h
    by_contra hnd
    have := foldl_insDistinct_length_lt_of_dup l [] hnd
    simp at this
    omega
  · intro hnd
    have := foldl_insDistinct_length_nodup l [] hnd (by simp)
    simpa using this

/-- One step of a direct word counter: scanning characters left to right,
a word starts at each non-whitespace character that is not preceded by a
non-whitespace character.  The state is (inside a word, words seen). -/
def wcStep (st : Bool × Nat) (c : Char) : Bool × Nat :=
  if isPySpace c then (false, st.2)
  else if st.1 then (true, st.2)
  else (true, st.2 + 1)

/-- Number of whitespace-separated words of a string, counted directly
(independently of `pySplit`); used to state the duration formula the way the
specification phrases it. -/
def countWords (l : List Char) : Nat :=
  (l.foldl wcStep (false, 0)).2

/-- The word counter is invariant under shifting the count. -/
theorem foldl_wcStep_shift (r : List Char) :
    ∀ b m, (r.foldl wcStep (b, m)).2 = m + (r.foldl wcStep (b, 0)).2 := by
  induction r with
  | nil => intro b m; simp
  | cons c r ih =>
    intro b m
    by_cases hws : isPySpace c = true
    · simp only [List.foldl_cons, wcStep, hws, if_true]
      exact ih false m
    · cases b with
      | true =>
        simp only [List.foldl_cons, wcStep, if_neg hws, if_pos rfl]
        exact ih true m
      | false =>
        simp only [List.foldl_cons, wcStep, if_neg hws, Bool.false_eq_true, if_false]
        rw [ih true (m + 1), show (0 + 1 : Nat) = 1 from rfl, ih true 1]
        omega

/-- A whitespace run leaves the out-of-word state unchanged. -/
theorem foldl_wcStep_ws (w : List Char) :
    ∀ m, (∀ c ∈ w, isPySpace c = true) → w.foldl wcStep (false, m) = (false, m) := by
  induction w with
  | nil => intro m _; rfl
  | cons c w ih =>
    intro m h
    simp only [List.foldl_cons, wcStep, if_pos (h c (List.mem_cons_self c w))]
    exact ih m (fun x hx => h x (List.mem_cons_of_mem c hx))

/-- A non-whitespace run keeps the in-word state unchanged. -/
theorem foldl_wcStep_inword (w : List Char) :
    ∀ m, (∀ c ∈ w, isPySpace c = false) → w.foldl wcStep (true, m) = (true, m) := by
  induction w with
  | nil => intro m _; rfl
  | cons c w ih =>
    intro m h
    simp only [List.foldl_cons, wcStep, h c (List.mem_cons_self c w)]
    simp only [Bool.false_eq_true, if_neg, if_pos]
    exact ih m (fun x hx => h x (List.mem_cons_of_mem c hx))

/-- A nonempty non-whitespace run entered from outside a word counts one
word. -/
theorem foldl_wcStep_word (d : Char) (ds : List Char) (m : Nat)
    (h : ∀ c ∈ d :: ds, isPySpace c = false) :
    (d :: ds).foldl wcStep (false, m) = (true, m + 1) := by
  simp only [List.foldl_cons, wcStep, h d (List.mem_cons_self d ds)]
  simp only [Bool.false_eq_true, if_neg]
  exact foldl_wcStep_inword ds (m + 1) (fun x hx => h x (List.mem_cons_of_mem d hx))

/-- The head of a `dropWhile` result fails the predicate. -/
theorem dropWhile_head_false {p : Char → Bool} :
    ∀ (l : List Char) (a : Char) (t : List Char),
      l.dropWhile p = a :: t → p a = false := by
  intro l
  induction l with
  | nil => intro a t h; simp at h
  | cons c cs ih =>
    intro a t h
    rw [List.dropWhile_cons] at h
    by_cases hc : p c = true
    · rw [if_pos hc] at h
      exact ih a t h
    · rw [if_neg hc] at h
      have hca : c = a := by injection h
      subst hca
      cases hpc : p c with
      | false => rfl
      | true => exact absurd hpc hc

/-- With sufficient fuel, the length of Python's `content.split()` is the
directly-counted number of whitespace-separated words. -/
theorem pySplitF_length_eq_countWords (fuel : Nat) :
    ∀ l : List Char, l.length ≤ fuel → (pySplitF fuel l).length = countWords l := by
  induction fuel with
  | zero =>
    intro l hl
    have : l = [] := List.length_eq_zero.mp (Nat.le_zero.mp hl)
    subst this
    rfl
  | succ fuel ih =>
    intro l hl
    cases l with
    | nil => rfl
    | cons c cs =>
      simp only [pySplitF]
      cases hdw : (c :: cs).dropWhile isPySpace with
      | nil =>
        have hall : ∀ x ∈ c :: cs, isPySpace x = true :=
          List.dropWhile_eq_nil_iff.mp hdw
        simp only [List.length_nil]
        unfold countWords
        rw [foldl_wcStep_ws (c :: cs) 0 hall]
      | cons d ds =>
        simp only [List.length_cons]
        obtain ⟨w, hw⟩ : ∃ w, w = (d :: ds).takeWhile (fun e => !(isPySpace e)) := ⟨_, rfl⟩
        obtain ⟨r, hr⟩ : ∃ r, r = (d :: ds).dropWhile (fun e => !(isPySpace e)) := ⟨_, rfl⟩
        rw [← hr]
        have hd : isPySpace d = false := dropWhile_head_false (c :: cs) d ds hdw
        have hwne : w ≠ [] := by
          rw [hw]
          simp only [List.takeWhile_cons, hd]
          simp
        have hsplit2 : w ++ r = d :: ds := by
          rw [hw, hr]
          exact List.takeWhile_append_dropWhile _ _
        have hlen2 : w.length + r.length = ds.length + 1 := by
          have := congrArg List.length hsplit2
          simpa [List.length_append] using this
        have hlendw : (d :: ds).length ≤ (c :: cs).length := by
          have h1 := congrArg List.length hdw
          have h2 : ((c :: cs).dropWhile isPySpace).length ≤ (c :: cs).length :=
            (List.dropWhile_sublist isPySpace).length_le
          omega
        have hrfuel : r.length ≤ fuel := by
          have hw1 : 1 ≤ w.length := by
            cases hwc : w with
            | nil => exact absurd hwc hwne
            | cons x xs => simp [hwc]
          simp only [List.length_cons] at hl hlendw
          omega
        rw [ih r hrfuel]
        have hsplit1 : (c :: cs).takeWhile isPySpace ++ (d :: ds) = c :: cs := by
          rw [← hdw]
          exact List.takeWhile_append_dropWhile _ _
        have hws1 : ∀ x ∈ (c :: cs).takeWhile isPySpace, isPySpace x = true :=
          fun x hx => List.mem_takeWhile_imp hx
        have hwsw : ∀ x ∈ w, isPySpace x = false := by
          intro x hx
          rw [hw] at hx
          have := List.mem_takeWhile_imp hx
          simpa using this
        unfold countWords
        rw [← hsplit1, ← hsplit2, List.foldl_append, List.foldl_append,
            foldl_wcStep_ws _ 0 hws1]
        cases hwc : w with
        | nil => exact absurd hwc hwne
        | cons x xs =>
          have hwordstep : (x :: xs).foldl wcStep (false, 0) = (true, 1) := by
            have := foldl_wcStep_word x xs 0 (hwc ▸ hwsw)
            simpa using this
          rw [hwordstep, foldl_wcStep_shift r true 1]
          have htail : (r.foldl wcStep (true, 0)).2 = (r.foldl wcStep (false, 0)).2 := by
            cases hrc : r with
            | nil => rfl
            | cons e es =>
              have h0 : (d :: ds).dropWhile (fun e => !(isPySpace e)) = e :: es :=
                hr.symm.trans hrc
              have he : isPySpace e = true := by
                have := dropWhile_head_false (d :: ds) e es h0
                simpa using this
              simp only [List.foldl_cons, wcStep, he, if_true]
          rw [htail]
          omega

/-- The code's word count agrees with the direct word counter. -/
theorem pySplit_length_eq_countWords (l : List Char) :
    (pySplit l).length = countWords l :=
  pySplitF_length_eq_countWords l.length l (Nat.le_refl _)

/-- Shape of the enumerate loop of `_extract_code_blocks`: the i-th produced
example holds the i-th scanned block, trimmed, with the placeholder
explanation numbered from the running counter. -/
theorem buildExamples_getElem? (lst : List (List Char)) :
    ∀ k i, (buildExamples k lst)[i]? =
      (lst[i]?).map (fun code =>
        ({ code := pyStrip code,
           explanation := ("Code example ".toList) ++ (Nat.repr (k + i + 1)).toList }
          : CodeExample)) := by
  induction lst with
  | nil => intro k i; simp [buildExamples]
  | cons a lst ih =>
    intro k i
    cases i with
    | zero => simp [buildExamples]
    | succ i =>
      simp only [buildExamples, List.getElem?_cons_succ]
      rw [ih (k + 1) i]
      have : k + 1 + i = k + (i + 1) := by omega
      rw [this]

/-- The enumerate loop produces one example per scanned block. -/
theorem buildExamples_length (lst : List (List Char)) :
    ∀ k, (buildExamples k lst).length = lst.length := by
  induction lst with
  | nil => intro k; rfl
  | cons a lst ih =>
    intro k
    simp only [buildExamples, List.length_cons, ih (k + 1)]

/-- The prompt loop is a filter by length strictly greater than 10 followed
by stripping, in order, without deduplication. -/
theorem buildPrompts_eq_filter_map (ms : List (List Char)) :
    buildPrompts ms = (ms.filter (fun m => 10 < m.length)).map pyStrip := by
  induction ms with
  | nil => rfl
  | cons m ms ih =>
    simp only [buildPrompts, List.filter_cons]
    by_cases h : 10 < m.length
    · rw [if_pos h, if_pos (by simpa using h), List.map_cons, ih]
    · rw [if_neg h, if_neg (by simpa using h), ih]

/-- Membership in a conditional singleton. -/
theorem mem_ite_nil_singleton {c : Prop} [Decidable c] (e x : VErr) :
    (e ∈ (if c then ([] : List VErr) else [x])) ↔ (¬ c ∧ e = x) := by
  split
  · rename_i hc
    simp [hc]
  · rename_i hc
    simp [hc]

/-- Error component of `_validate_subtopics` when markers are present. -/
theorem subtopicsErrs_fst (l : List Char) (m : Nat) (ms : List Nat)
    (h : findMarkers l = m :: ms) :
    (subtopicsErrs l).1 =
      (if m :: ms = List.range' 1 (m :: ms).length then [] else [VErr.notSequential]) ++
      (if (m :: ms).length = distinctCount (m :: ms) then [] else [VErr.duplicateNumbers]) ++
      (if m = 1 then [] else [VErr.firstNotOne]) := by
  unfold subtopicsErrs
  rw [h]
  simp only [apply_ite Prod.fst]

/-- Every header error is one of the two title errors. -/
theorem mem_headersErrs (l : List Char) (e : VErr) (h : e ∈ (headersErrs l).1) :
    e = VErr.missingTitle ∨ e = VErr.emptyTitle := by
  unfold headersErrs at h
  split at h
  · simp at h
    exact Or.inl h
  · split at h
    · simp at h
      exact Or.inr h
    · simp at h

/-- Error list of `validate_content` on non-blank input. -/
theorem validate_content_errors (c : String) (h : pyStrip c.toList ≠ []) :
    (validate_content c).errors =
      (headersErrs c.toList).1 ++ (subtopicsErrs c.toList).1 := by
  unfold validate_content build_result
  rw [if_neg h]

/-- Validity flag of `validate_content` on non-blank input. -/
theorem validate_content_is_valid (c : String) (h : pyStrip c.toList ≠ []) :
    (validate_content c).is_valid =
      ((headersErrs c.toList).1 ++ (subtopicsErrs c.toList).1).isEmpty := by
  unfold validate_content build_result
  rw [if_neg h]

/-- Duplicate condition of the validator, restated as duplicate existence. -/
theorem distinct_cond_iff_dup (m : Nat) (ms : List Nat) :
    ((m :: ms).length ≠ distinctCount (m :: ms)) ↔ ∃ x, 1 < (m :: ms).count x := by
  have h1 : ((m :: ms).length = distinctCount (m :: ms)) ↔ (m :: ms).Nodup := by
    rw [eq_comm]
    exact distinctCount_eq_length_iff (m :: ms)
  rw [show ((m :: ms).length ≠ distinctCount (m :: ms)) ↔ ¬ (m :: ms).Nodup from
        not_iff_not.mpr h1]
  rw [List.nodup_iff_count_le_one]
  push_neg
  simp only [not_forall, not_le]

/-- Claim C10: the parser is total (here, a total Lean function by
construction) and on the empty document returns the placeholder title
`Untitled Lecture`, an empty description and no subtopics. -/
theorem claim_C10 :
    parse_content "" =
      { title := ("Untitled Lecture".toList)
        description := []
        subtopics := []
        total_subtopics := 0 } := by
  rfl

/-- Claim C1: a document containing a case-insensitive `### Lecture Title :`
header with a non-blank value, whose marker numbers in document order are
exactly 1, ..., N for some N ≥ 1, validates with `is_valid = true`. -/
theorem claim_C1 (c : String) (t : List Char) (n : Nat)
    (ht : titleSearch c.toList = some t) (htb : pyStrip t ≠ [])
    (hn : 1 ≤ n) (hm : findMarkers c.toList = List.range' 1 n) :
    (validate_content c).is_valid = true := by
  have hne : pyStrip c.toList ≠ [] := pyStrip_ne_nil_of_titleSearch_some _ t ht
  rw [validate_content_is_valid c hne]
  have hhdr : (headersErrs c.toList).1 = [] := by
    unfold headersErrs
    rw [ht]
    simp only [if_neg htb]
  obtain ⟨k, rfl⟩ : ∃ k, n = k + 1 := ⟨n - 1, by omega⟩
  have hrange : findMarkers c.toList = 1 :: List.range' 2 k := by
    rw [hm, List.range'_succ]
  have hlen : (1 :: List.range' 2 k).length = k + 1 := by
    simp [List.length_range']
  have hcond1 : (1 :: List.range' 2 k) = List.range' 1 ((1 :: List.range' 2 k).length) := by
    rw [hlen, List.range'_succ]
  have hnodup : (1 :: List.range' 2 k).Nodup := by
    have := List.nodup_range' 1 (k + 1)
    rwa [List.range'_succ] at this
  have hcond2 : (1 :: List.range' 2 k).length = distinctCount (1 :: List.range' 2 k) :=
    ((distinctCount_eq_length_iff _).mpr hnodup).symm
  rw [hhdr, subtopicsErrs_fst c.toList 1 (List.range' 2 k) hrange,
      if_pos hcond1, if_pos hcond2, if_pos rfl]
  rfl

/-- Mapping a list determines its elements through the image list. -/
theorem map_eq_imp_getElem {α β : Type} (f : α → β) (l : List α) (r : List β)
    (h : l.map f = r) (i : Nat) (hi : i < l.length) (hir : i < r.length) :
    f (l[i]) = r[i] := by
  subst h
  exact (List.getElem_map f).symm

/-- Claim C2: on any document the validator accepts, the parser produces
exactly one subtopic per marker, and the i-th subtopic (0-based) has
`order_index = i + 1`: the order indices are 1-based, contiguous and
ascending. -/
theorem claim_C2 (c : String) (h : (validate_content c).is_valid = true) :
    (parse_content c).subtopics.length = (findMarkers c.toList).length ∧
    ∀ i (hi : i < (parse_content c).subtopics.length),
      ((parse_content c).subtopics[i]).order_index = i + 1 := by
  by_cases hne : pyStrip c.toList = []
  · exfalso
    unfold validate_content build_result at h
    rw [if_pos hne] at h
    simp at h
  · rw [validate_content_is_valid c hne, List.isEmpty_iff, List.append_eq_nil] at h
    obtain ⟨hhdr, hsub⟩ := h
    have hex : ∃ m ms, findMarkers c.toList = m :: ms := by
      cases hm0 : findMarkers c.toList with
      | nil =>
        exfalso
        unfold subtopicsErrs at hsub
        rw [hm0] at hsub
        simp at hsub
      | cons a b => exact ⟨a, b, rfl⟩
    obtain ⟨m, ms, hm0⟩ := hex
    rw [subtopicsErrs_fst c.toList m ms hm0, List.append_eq_nil, List.append_eq_nil] at hsub
    have hcond1 : m :: ms = List.range' 1 ((m :: ms).length) := by
      rcases hsub with ⟨⟨h1, _⟩, _⟩
      by_contra hc
      rw [if_neg hc] at h1
      exact List.cons_ne_nil _ _ h1
    have hmap : (parse_subtopics c.toList).map (fun st => st.order_index) =
        findMarkers c.toList := by
      unfold parse_subtopics
      rw [findMarkers_eq_markerSplit, List.map_map]
      rfl
    have horder : (parse_subtopics c.toList).map (fun st => st.order_index) =
        List.range' 1 ((m :: ms).length) := by
      rw [hmap, hm0]
      exact hcond1
    have hlen : (parse_content c).subtopics.length = (findMarkers c.toList).length := by
      show (parse_subtopics c.toList).length = (findMarkers c.toList).length
      rw [← hmap, List.length_map]
    refine ⟨hlen, ?_⟩
    intro i hi
    have hi0 : i < (parse_subtopics c.toList).length := hi
    have hir : i < (List.range' 1 ((m :: ms).length)).length := by
      have hle := congrArg List.length horder
      simp only [List.length_map, List.length_range'] at hle
      rw [List.length_range']
      omega
    have hmapel := map_eq_imp_getElem (fun st => st.order_index)
      (parse_subtopics c.toList) (List.range' 1 ((m :: ms).length)) horder i hi0 hir
    rw [List.getElem_range'] at hmapel
    show ((parse_subtopics c.toList)[i]).order_index = i + 1
    rw [hmapel]
    omega

/-- Claim C3: when at least one marker is present, the validator emits the
sequential-numbering error iff the marker sequence differs from `1..n`
(order-sensitively), the duplicate error iff some number occurs more than
once, and the first-marker error iff the first marker is not 1 — the three
checks fire independently. -/
theorem claim_C3 (c : String) (m : Nat) (ms : List Nat)
    (h : findMarkers c.toList = m :: ms) :
    (VErr.notSequential ∈ (validate_content c).errors ↔
      m :: ms ≠ List.range' 1 ((m :: ms).length)) ∧
    (VErr.duplicateNumbers ∈ (validate_content c).errors ↔
      ∃ x, 1 < (m :: ms).count x) ∧
    (VErr.firstNotOne ∈ (validate_content c).errors ↔ m ≠ 1) := by
  have hne : pyStrip c.toList ≠ [] :=
    pyStrip_ne_nil_of_findMarkers_ne_nil _ (by rw [h]; exact List.cons_ne_nil m ms)
  have hns : ∀ lx : List Char, VErr.notSequential ∉ (headersErrs lx).1 := by
    intro lx hmem
    rcases mem_headersErrs _ _ hmem with h1 | h1 <;> exact VErr.noConfusion h1
  have hdp : ∀ lx : List Char, VErr.duplicateNumbers ∉ (headersErrs lx).1 := by
    intro lx hmem
    rcases mem_headersErrs _ _ hmem with h1 | h1 <;> exact VErr.noConfusion h1
  have hfo : ∀ lx : List Char, VErr.firstNotOne ∉ (headersErrs lx).1 := by
    intro lx hmem
    rcases mem_headersErrs _ _ hmem with h1 | h1 <;> exact VErr.noConfusion h1
  rw [validate_content_errors c hne, subtopicsErrs_fst c.toList m ms h]
  refine ⟨?_, ?_, ?_⟩
  · simp [List.mem_append, mem_ite_nil_singleton, hns]
  · rw [← distinct_cond_iff_dup m ms]
    simp [List.mem_append, mem_ite_nil_singleton, hdp]
  · simp [List.mem_append, mem_ite_nil_singleton, hfo]

/-- Witness document for claim C1. -/
def c1doc : String := "### Lecture Title : Intro\n# $1\nSome body text"

/-- Witness for claim C1 at a concrete well-formed document. -/
theorem claim_C1_witness :
    titleSearch c1doc.toList = some ("Intro".toList) ∧
    pyStrip ("Intro".toList) ≠ [] ∧
    1 ≤ 1 ∧
    findMarkers c1doc.toList = List.range' 1 1 ∧
    (validate_content c1doc).is_valid = true :=
  ⟨by decide, by decide, by decide, by decide,
   claim_C1 c1doc ("Intro".toList) 1 (by decide) (by decide) (by decide) (by decide)⟩

/-- Witness document for claim C2. -/
def c2doc : String := "### Lecture Title : T\n# $1 alpha notes\n# $2 beta notes"

/-- Witness for claim C2 at a concrete accepted document. -/
theorem claim_C2_witness :
    (validate_content c2doc).is_valid = true ∧
    ((parse_content c2doc).subtopics.length = (findMarkers c2doc.toList).length ∧
     ∀ i (hi : i < (parse_content c2doc).subtopics.length),
       ((parse_content c2doc).subtopics[i]).order_index = i + 1) :=
  ⟨by decide, claim_C2 c2doc (by decide)⟩

/-- Witness document for claim C3 (duplicated marker `$2`, first not `$1`). -/
def c3doc : String := "### Lecture Title : T\n# $2\n# $2 text here"

/-- Witness for claim C3 at a concrete malformed document. -/
theorem claim_C3_witness :
    findMarkers c3doc.toList = 2 :: [2] ∧
    ((VErr.notSequential ∈ (validate_content c3doc).errors ↔
       2 :: [2] ≠ List.range' 1 ((2 :: [2]).length)) ∧
     (VErr.duplicateNumbers ∈ (validate_content c3doc).errors ↔
       ∃ x, 1 < (2 :: [2]).count x) ∧
     (VErr.firstNotOne ∈ (validate_content c3doc).errors ↔ 2 ≠ 1)) :=
  ⟨by decide, claim_C3 c3doc 2 [2] (by decide)⟩

/-- Document whose last marker is its final token. -/
def c4doc : String := "### Lecture Title : T\n# $1 intro\n# $2"

/-- Claim C4 counterexample: the claim says a trailing marker is dropped and
produces no subtopic; on this document the trailing `# $2` does produce a
subtopic, with empty content.  (The loop guard `i + 1 < len(parts)` in the
source never fails, because `re.split` with a capture group always appends
the trailing remainder part.) -/
theorem claim_C4_counterexample :
    (parse_content c4doc).total_subtopics = 2 ∧
    (parse_content c4doc).subtopics.map (fun st => (st.order_index, st.content)) =
      [(1, ("intro".toList)), (2, [])] := by
  exact ⟨by decide, by decide⟩

/-- Claim C4 amended: no marker is dropped — the parser produces exactly one
subtopic per marker occurrence, in document order, carrying that marker's
number; in particular a trailing marker yields a subtopic whose content is
empty. -/
theorem claim_C4_amended (c : String) :
    (parse_content c).subtopics.map (fun st => st.order_index) =
      findMarkers c.toList := by
  show (parse_subtopics c.toList).map (fun st => st.order_index) = findMarkers c.toList
  unfold parse_subtopics
  rw [findMarkers_eq_markerSplit, List.map_map]
  rfl

/-- A 150-word section body (the string `"word " * 150`). -/
def body150 : List Char := (List.replicate 150 ("word ".toList)).flatten

/-- A 1000-word section body (the string `"word " * 1000`). -/
def body1000 : List Char := (List.replicate 1000 ("word ".toList)).flatten

/-- The duration matcher fails at any position not opening with `[`. -/
theorem durationAt_cons_ne (c : Char) (cs : List Char) (h : ¬ c = '[') :
    durationAt (c :: cs) = none := by
  unfold durationAt
  split
  · rename_i r heq
    injection heq with h1 _
    exact absurd h1 h
  · rfl

/-- A body containing no `[` has no duration annotation. -/
theorem durationSearch_none_of_no_bracket (l : List Char) (h : '[' ∉ l) :
    durationSearch l = none := by
  unfold durationSearch
  induction l with
  | nil => rfl
  | cons c cs ih =>
    simp only [searchO]
    rw [durationAt_cons_ne c cs (fun he => h (he ▸ List.mem_cons_self c cs))]
    exact ih (fun hm => h (List.mem_cons_of_mem c hm))

/-- The n-fold repetition of `word ` has exactly n words. -/
theorem countWords_replicate_word (n : Nat) :
    countWords ((List.replicate n ("word ".toList)).flatten) = n := by
  induction n with
  | zero => rfl
  | succ n ih =>
    rw [List.replicate_succ, List.flatten_cons]
    unfold countWords
    rw [List.foldl_append]
    rw [show List.foldl wcStep (false, 0) ("word ".toList) = (false, 1) from rfl]
    rw [foldl_wcStep_shift _ false 1]
    unfold countWords at ih
    omega

/-- The n-fold repetition of `word ` contains no bracket. -/
theorem no_bracket_replicate_word (n : Nat) :
    '[' ∉ (List.replicate n ("word ".toList)).flatten := by
  intro hm
  rcases List.mem_flatten.mp hm with ⟨w, hw, hcw⟩
  rw [List.mem_replicate] at hw
  rcases hw with ⟨_, rfl⟩
  revert hcw
  decide

/-- Claim C5 counterexample: the claim asserts that a 1000-word body with no
explicit annotation reaches the cap value 60; the code yields
`min(max(5, 1000 // 100 * 5), 60) = 50`. -/
theorem claim_C5_counterexample :
    durationSearch body1000 = none ∧ estimate_duration body1000 ≠ 60 := by
  have hd : durationSearch body1000 = none :=
    durationSearch_none_of_no_bracket _ (no_bracket_replicate_word 1000)
  have hps : (pySplit body1000).length = 1000 := by
    rw [pySplit_length_eq_countWords]
    exact countWords_replicate_word 1000
  have hval : estimate_duration body1000 = 50 := by
    simp only [estimate_duration, hd, hps]
    decide
  refine ⟨hd, ?_⟩
  rw [hval]
  decide

/-- Claim C5 amended: for a section body with no explicit `[N min]`
annotation, the estimated duration is `min(60, max(5, floor(words / 100) * 5))`
where `words` is the number of whitespace-separated words of the body; a
body of exactly 150 words yields 5, and a body of 1000 words yields 50 (the
cap 60 is only reached from 1200 words up). -/
theorem claim_C5_amended (s : List Char) (h : durationSearch s = none) :
    estimate_duration s = min 60 (max 5 (countWords s / 100 * 5)) := by
  unfold estimate_duration
  rw [h, pySplit_length_eq_countWords s]
  exact Nat.min_comm _ _

/-- Witness for claim C5 at the concrete 150-word body. -/
theorem claim_C5_witness :
    durationSearch body150 = none ∧
    estimate_duration body150 = min 60 (max 5 (countWords body150 / 100 * 5)) ∧
    estimate_duration body150 = 5 := by
  have hd : durationSearch body150 = none :=
    durationSearch_none_of_no_bracket _ (no_bracket_replicate_word 150)
  have hps : (pySplit body150).length = 150 := by
    rw [pySplit_length_eq_countWords]
    exact countWords_replicate_word 150
  refine ⟨hd, claim_C5_amended body150 hd, ?_⟩
  simp only [estimate_duration, hd, hps]
  decide

/-- Document with an explicit `[120 min]` annotation in its only section. -/
def c6doc : String := "### Lecture Title : T\n# $1\nLesson body text here [120 min]"

/-- Claim C6 counterexample: the claim asserts every parsed subtopic has a
duration between 5 and 60; an explicit `[120 min]` annotation is returned
unclamped, so the produced subtopic has duration 120. -/
theorem claim_C6_counterexample :
    (parse_content c6doc).subtopics.map (fun st => st.estimated_duration_minutes) =
      [120] ∧
    ¬ (∀ st ∈ (parse_content c6doc).subtopics,
        5 ≤ st.estimated_duration_minutes ∧ st.estimated_duration_minutes ≤ 60) := by
  exact ⟨by decide, by decide⟩

/-- Claim C6 amended: the 5..60 bounds hold exactly for the subtopics whose
section body carries no explicit `[N min]` annotation; when an annotation
is present its value N is returned directly, unclamped (it may be 0 or
exceed 60, as in the counterexample). -/
theorem claim_C6_amended (c : String) (st : ParsedSubtopic)
    (h : st ∈ (parse_content c).subtopics) :
    (durationSearch st.content = none →
      5 ≤ st.estimated_duration_minutes ∧ st.estimated_duration_minutes ≤ 60) ∧
    (∀ n, durationSearch st.content = some n → st.estimated_duration_minutes = n) := by
  have hmem : st ∈ parse_subtopics c.toList := h
  unfold parse_subtopics at hmem
  rcases List.mem_map.mp hmem with ⟨p, _, rfl⟩
  have hcont : (mkSubtopic p.1 p.2).content = pyStrip p.2 := rfl
  have hdur : (mkSubtopic p.1 p.2).estimated_duration_minutes =
      estimate_duration (pyStrip p.2) := rfl
  constructor
  · intro hd
    rw [hcont] at hd
    rw [hdur]
    simp only [estimate_duration, hd]
    exact ⟨le_min (le_max_left _ _) (by norm_num), min_le_right _ _⟩
  · intro n hn
    rw [hcont] at hn
    rw [hdur]
    simp only [estimate_duration, hn]

/-- Witness for claim C6 at a concrete parsed subtopic with no annotation. -/
def c6wdoc : String := "### Lecture Title : T\n# $1\nShort note text"

/-- The subtopic `parse_content c6wdoc` produces. -/
def c6wsub : ParsedSubtopic :=
  { order_index := 1
    title := ("Short note text".toList)
    content := ("Short note text".toList)
    examples := []
    inquiry_prompts := []
    estimated_duration_minutes := 5 }

/-- Witness for claim C6. -/
theorem claim_C6_witness :
    c6wsub ∈ (parse_content c6wdoc).subtopics ∧
    ((durationSearch c6wsub.content = none →
       5 ≤ c6wsub.estimated_duration_minutes ∧ c6wsub.estimated_duration_minutes ≤ 60) ∧
     (∀ n, durationSearch c6wsub.content = some n →
       c6wsub.estimated_duration_minutes = n)) :=
  ⟨by decide, claim_C6_amended c6wdoc c6wsub (by decide)⟩

/-- Section body holding one quoted candidate of exactly 10 characters. -/
def c7body : List Char := ("> \"abcdefghij\" tail".toList)

/-- Claim C7 counterexample: the claim keeps candidates of length at least
10; the code keeps only lengths strictly greater than 10, so the 10-character
candidate here is discarded. -/
theorem claim_C7_counterexample :
    scanQuotes c7body = [("abcdefghij".toList)] ∧
    (("abcdefghij".toList)).length = 10 ∧
    ¬ (∀ m ∈ scanQuotes c7body,
        10 ≤ m.length → pyStrip m ∈ extract_inquiry_prompts c7body) := by
  exact ⟨by decide, by decide, by decide⟩

/-- Claim C7 amended: a quoted candidate is included in the inquiry prompts
iff its length is strictly greater than 10 (at least 11 characters); the
kept candidates appear stripped, in order of appearance, without
deduplication. -/
theorem claim_C7_amended (s : List Char) :
    extract_inquiry_prompts s =
      ((scanQuotes s).filter (fun m => 10 < m.length)).map pyStrip :=
  buildPrompts_eq_filter_map (scanQuotes s)

/-- Section body holding one fenced block with the language tag `js`. -/
def c8body : List Char := ("```js\nconsole.log(1)\n```".toList)

/-- Claim C8 counterexample: the claim captures a fenced block with any
language tag; the code's pattern admits only the literal tag `python` (or no
tag), so this `js` block yields no example at all. -/
theorem claim_C8_counterexample :
    scanCodeBlocks c8body = [] ∧ extract_code_blocks c8body = [] := by
  exact ⟨by decide, by decide⟩

/-- Claim C8 amended: each fenced block opened by three backticks followed
immediately by a newline or by the literal tag `python` and a newline (no
other language tag is recognized), up to the nearest following
newline-plus-three-backticks, is captured as exactly one example whose code
is the inner text trimmed and whose explanation is the literal
`Code example {n}` with n the block's 1-based position in the section. -/
theorem claim_C8_amended (s : List Char) (i : Nat) :
    (extract_code_blocks s).length = (scanCodeBlocks s).length ∧
    (extract_code_blocks s)[i]? = (scanCodeBlocks s)[i]?.map (fun code =>
      ({ code := pyStrip code,
         explanation := ("Code example ".toList) ++ (Nat.repr (i + 1)).toList }
        : CodeExample)) := by
  refine ⟨buildExamples_length _ 0, ?_⟩
  have h := buildExamples_getElem? (scanCodeBlocks s) 0 i
  simp only [Nat.zero_add] at h
  exact h

/-- Document whose only `# $1` occurrence sits in the middle of a line. -/
def c9doc : String := "### Lecture Title : T\nintro text # $1 body text here"

/-- Claim C9 counterexample: the claim says a `# $N` occurrence that does
not begin a line is not a boundary for either component; here the mid-line
occurrence is found by the validator (its marker list is `[1]`, and the
document validates with no error) and by the parser (one subtopic is
produced from the text after the mid-line marker). -/
theorem claim_C9_counterexample :
    findMarkers c9doc.toList = [1] ∧
    (validate_content c9doc).errors = [] ∧
    (parse_content c9doc).subtopics.map (fun st => (st.order_index, st.content)) =
      [(1, ("body text here".toList))] := by
  exact ⟨by decide, by decide, by decide⟩

/-- Claim C9 amended: both components recognize the marker pattern `#`,
space, `$`, digits at every position of the document — not only at line
starts — and they agree: the validator's marker list is exactly the list of
numbers at the parser's split boundaries.  The second conjunct exhibits the
mid-line recognition concretely. -/
theorem claim_C9_amended :
    (∀ c : String, findMarkers c.toList = ((markerSplit c.toList).2).map Prod.fst) ∧
    findMarkers (("x # $7 y".toList)) = [7] :=
  ⟨fun c => findMarkers_eq_markerSplit c.toList, by decide⟩
